import Mathlib

/-!
Verification development for the dberd canonical schema model and its
backends.

The Go sources are embedded shallowly:

* the core data model (Schema, Table, Column, TableColumn, Reference)
  is mirrored by Lean structures with the same fields;
* Go string comparison (byte-lexicographic on UTF-8, equivalently
  code-point lexicographic) is mirrored by an executable lexicographic
  comparison on the character list of a String;
* each `sort.Slice(x, less)` call is mirrored by a stable sort of the
  list under the total preorder `le a b := (less b a = false)` derived
  from the strict comparator, which is exactly the postcondition Go
  guarantees for `sort.Slice`;
* slice-valued struct fields whose nil-versus-empty distinction matters
  are mirrored by `Option (List _)` (`none` models a nil slice);
* Go functions returning `(value, error)` pairs are mirrored either by
  `Except` or by explicit pairs with `Option` errors, as noted at each
  definition.
-/

namespace Dberd

/-! ## Lexicographic machinery for Go string comparison -/

section LexOrder

variable {α : Type} (lt : α → α → Bool)

/-- Generic boolean lexicographic strict order on lists, parameterized by a
strict order on elements.  The empty list is smaller than any nonempty
list; at a head position, strictly smaller heads decide, strictly larger
heads decide negatively, and equivalent heads defer to the tails. -/
def lexLt : List α → List α → Bool
  | [], [] => false
  | [], _ :: _ => true
  | _ :: _, [] => false
  | a :: as, b :: bs => if lt a b then true else if lt b a then false else lexLt as bs

theorem lexLt_irrefl (hirr : ∀ a : α, lt a a = false) :
    ∀ as : List α, lexLt lt as as = false := by
  intro as
  induction as with
  | nil => rfl
  | cons a as ih => simp [lexLt, hirr a, ih]

theorem lexLt_asymm
    (hasymm : ∀ a b : α, lt a b = true → lt b a = true → False) :
    ∀ as bs : List α, lexLt lt as bs = true → lexLt lt bs as = true → False := by
  intro as
  induction as with
  | nil =>
    intro bs h1 h2
    cases bs with
    | nil => simp [lexLt] at h1
    | cons b bs => simp [lexLt] at h2
  | cons a as ih =>
    intro bs h1 h2
    cases bs with
    | nil => simp [lexLt] at h1
    | cons b bs =>
      by_cases hab : lt a b = true
      · have hba : lt b a = false := by
          cases h : lt b a
          · rfl
          · exact absurd (hasymm a b hab h) (fun f => f)
        simp [lexLt, hab, hba] at h2
      · have hab' : lt a b = false := by
          cases h : lt a b
          · rfl
          · exact absurd h hab
        by_cases hba : lt b a = true
        · simp [lexLt, hab', hba] at h1
        · have hba' : lt b a = false := by
            cases h : lt b a
            · rfl
            · exact absurd h hba
          simp [lexLt, hab', hba'] at h1 h2
          exact ih bs h1 h2

theorem lexLt_conn
    (hconn : ∀ a b : α, lt a b = false → lt b a = false → a = b) :
    ∀ as bs : List α, lexLt lt as bs = false → lexLt lt bs as = false → as = bs := by
  intro as
  induction as with
  | nil =>
    intro bs h1 _
    cases bs with
    | nil => rfl
    | cons b bs => simp [lexLt] at h1
  | cons a as ih =>
    intro bs h1 h2
    cases bs with
    | nil => simp [lexLt] at h2
    | cons b bs =>
      by_cases hab : lt a b = true
      · simp [lexLt, hab] at h1
      · have hab' : lt a b = false := by
          cases h : lt a b
          · rfl
          · exact absurd h hab
        by_cases hba : lt b a = true
        · simp [lexLt, hba, hab'] at h2
        · have hba' : lt b a = false := by
            cases h : lt b a
            · rfl
            · exact absurd h hba
          simp [lexLt, hab', hba'] at h1 h2
          have heq : a = b := hconn a b hab' hba'
          rw [heq, ih bs h1 h2]

theorem lexLt_trans
    (hconn : ∀ a b : α, lt a b = false → lt b a = false → a = b)
    (htrans : ∀ a b c : α, lt a b = true → lt b c = true → lt a c = true) :
    ∀ as bs cs : List α, lexLt lt as bs = true → lexLt lt bs cs = true →
      lexLt lt as cs = true := by
  intro as
  induction as with
  | nil =>
    intro bs cs h1 h2
    cases bs with
    | nil => simp [lexLt] at h1
    | cons b bs =>
      cases cs with
      | nil => simp [lexLt] at h2
      | cons c cs => simp [lexLt]
  | cons a as ih =>
    intro bs cs h1 h2
    cases bs with
    | nil => simp [lexLt] at h1
    | cons b bs =>
      cases cs with
      | nil => simp [lexLt] at h2
      | cons c cs =>
        by_cases hab : lt a b = true
        · by_cases hbc : lt b c = true
          · have hac : lt a c = true := htrans a b c hab hbc
            simp [lexLt, hac]
          · have hbc' : lt b c = false := by
              cases h : lt b c
              · rfl
              · exact absurd h hbc
            by_cases hcb : lt c b = true
            · simp [lexLt, hbc', hcb] at h2
            · have hcb' : lt c b = false := by
                cases h : lt c b
                · rfl
                · exact absurd h hcb
              have hbceq : b = c := hconn b c hbc' hcb'
              subst hbceq
              simp [lexLt, hab]
        · have hab' : lt a b = false := by
            cases h : lt a b
            · rfl
            · exact absurd h hab
          by_cases hba : lt b a = true
          · simp [lexLt, hab', hba] at h1
          · have hba' : lt b a = false := by
              cases h : lt b a
              · rfl
              · exact absurd h hba
            have habeq : a = b := hconn a b hab' hba'
            subst habeq
            simp [lexLt, hab', hba'] at h1
            by_cases hac : lt a c = true
            · simp [lexLt, hac]
            · have hac' : lt a c = false := by
                cases h : lt a c
                · rfl
                · exact absurd h hac
              by_cases hca : lt c a = true
              · simp [lexLt, hac', hca] at h2
              · have hca' : lt c a = false := by
                  cases h : lt c a
                  · rfl
                  · exact absurd h hca
                simp [lexLt, hac', hca'] at h2 ⊢
                exact ih bs cs h1 h2

end LexOrder

/-! ## Go string comparison

Go compares strings byte-lexicographically.  On UTF-8 encoded strings this
order coincides with code-point lexicographic order, which is what
comparing the character lists computes. -/

/-- Strict order on characters by code point, as a boolean. -/
def charLt (a b : Char) : Bool := a < b

/-- Go string comparison `a < b`: lexicographic on the character lists. -/
def strLt (a b : String) : Bool := lexLt charLt a.data b.data

/-- Go string comparison `a <= b`, i.e. the complement of `strLt b a`. -/
def strLe (a b : String) : Bool := !strLt b a

theorem charLt_irrefl (a : Char) : charLt a a = false := by
  simp [charLt]

theorem charLt_asymm (a b : Char) :
    charLt a b = true → charLt b a = true → False := by
  intro h1 h2
  simp [charLt] at h1 h2
  exact absurd h2 (lt_asymm h1)

theorem charLt_conn (a b : Char) :
    charLt a b = false → charLt b a = false → a = b := by
  intro h1 h2
  simp [charLt] at h1 h2
  exact le_antisymm h2 h1

theorem charLt_trans (a b c : Char) :
    charLt a b = true → charLt b c = true → charLt a c = true := by
  intro h1 h2
  simp [charLt] at h1 h2 ⊢
  exact lt_trans h1 h2

theorem strLt_irrefl (a : String) : strLt a a = false :=
  lexLt_irrefl charLt charLt_irrefl a.data

theorem strLt_asymm (a b : String) :
    strLt a b = true → strLt b a = true → False :=
  lexLt_asymm charLt charLt_asymm a.data b.data

theorem strLt_conn (a b : String) :
    strLt a b = false → strLt b a = false → a = b := by
  intro h1 h2
  have hd : a.data = b.data := lexLt_conn charLt charLt_conn a.data b.data h1 h2
  cases a
  cases b
  cases hd
  rfl

theorem strLt_trans (a b c : String) :
    strLt a b = true → strLt b c = true → strLt a c = true :=
  lexLt_trans charLt charLt_conn charLt_trans a.data b.data c.data

/-- Negative transitivity of `strLt`, the transitivity of Go `<=` on
strings. -/
theorem strLt_negtrans (a b c : String) :
    strLt b a = false → strLt c b = false → strLt c a = false := by
  intro h1 h2
  cases h : strLt c a
  · rfl
  · exfalso
    cases h3 : strLt c b
    · cases h4 : strLt b c
      · have : c = b := strLt_conn c b h3 h4
        subst this
        rw [h] at h1
        exact Bool.noConfusion h1
      · cases h5 : strLt b a
        · cases h6 : strLt a b
          · have : b = a := strLt_conn b a h5 h6
            subst this
            rw [h] at h3
            exact Bool.noConfusion h3
          · have := strLt_trans c a b h h6
            rw [h3] at this
            exact Bool.noConfusion this
        · rw [h5] at h1
          exact Bool.noConfusion h1
    · rw [h3] at h2
      exact Bool.noConfusion h2

/-! ## The canonical schema model (package dberd)

Lean mirrors of the Go structs in the dberd package.  Field names follow
the Go source.  The Go field Type of FormattedSchema is named Typ here
because Type is a reserved word in Lean. -/

/-- Go struct Column: a database table column. -/
structure Column where
  Name : String
  Comment : String := ""
  Definition : String := ""
  IsPrimary : Bool := false
deriving DecidableEq

/-- Go struct Table: a database table with its columns. -/
structure Table where
  Name : String
  Columns : List Column
deriving DecidableEq

/-- Go struct TableColumn: a reference to a specific column in a table. -/
structure TableColumn where
  Table : String
  Column : String
deriving DecidableEq

/-- Go struct Reference: a foreign-key edge between two table columns. -/
structure Reference where
  Source : TableColumn
  Target : TableColumn
deriving DecidableEq

/-- Go struct Schema: a complete database schema. -/
structure Schema where
  Tables : List Table
  References : List Reference
deriving DecidableEq

/-! ## Schema.Sort

The Go method sorts, in place: the Tables slice by name, then the
Columns slice of each table (primary first, then by name), then the References
slice by the 4-key tuple.  Each `sort.Slice(x, less)` call is mirrored by
a stable sort under `le a b := (less b a = false)`. -/

/-- The `less` closure of the `sort.Slice` call on `s.Tables`. -/
def tableLess (a b : Table) : Bool := strLt a.Name b.Name

/-- The `less` closure of the `sort.Slice` call on `s.Tables[i].Columns`:
if the primary flags differ the primary column is smaller, otherwise
compare names. -/
def columnLess (a b : Column) : Bool :=
  if a.IsPrimary != b.IsPrimary then a.IsPrimary else strLt a.Name b.Name

/-- The `less` closure of the `sort.Slice` call on `s.References`:
lexicographic on source table, source column, target table, target
column, realized by the Go switch on inequality of successive keys. -/
def referenceLess (a b : Reference) : Bool :=
  if a.Source.Table ≠ b.Source.Table then strLt a.Source.Table b.Source.Table
  else if a.Source.Column ≠ b.Source.Column then strLt a.Source.Column b.Source.Column
  else if a.Target.Table ≠ b.Target.Table then strLt a.Target.Table b.Target.Table
  else strLt a.Target.Column b.Target.Column

section SortSlice

variable {α : Type} (less : α → α → Bool)

/-- The total preorder under which `sort.Slice(x, less)` leaves the slice
sorted: for positions i < j the result satisfies `less x[j] x[i] = false`. -/
def leOf (a b : α) : Prop := less b a = false

instance decLeOf : DecidableRel (leOf less) := fun a b =>
  inferInstanceAs (Decidable (less b a = false))

/-- Model of `sort.Slice(x, less)` on the list holding the slice contents:
a (stable) sort under `leOf less`.  Any sorting algorithm meeting the
`sort.Slice` postcondition produces a list that is a permutation of the
input and pairwise `leOf less`-ordered, which is all the development
relies on. -/
def sortSlice (l : List α) : List α := List.insertionSort (leOf less) l

theorem sortSlice_perm (l : List α) : (sortSlice less l).Perm l :=
  List.perm_insertionSort (leOf less) l

theorem sortSlice_pairwise
    (hasymm : ∀ a b : α, less a b = true → less b a = true → False)
    (hnegtrans : ∀ a b c : α, less b a = false → less c b = false → less c a = false)
    (l : List α) : (sortSlice less l).Pairwise (leOf less) := by
  haveI : IsTotal α (leOf less) := by
    constructor
    intro a b
    by_cases h : less b a = true
    · right
      show less a b = false
      cases h2 : less a b
      · rfl
      · exact absurd (hasymm a b h2 h) (fun f => f)
    · left
      show less b a = false
      cases h2 : less b a
      · rfl
      · exact absurd h2 h
  haveI : IsTrans α (leOf less) := by
    constructor
    intro a b c h1 h2
    show less c a = false
    exact hnegtrans a b c h1 h2
  exact List.sorted_insertionSort (leOf less) l

theorem sortSlice_of_pairwise {l : List α} (h : l.Pairwise (leOf less)) :
    sortSlice less l = l :=
  List.Sorted.insertionSort_eq h

end SortSlice

/-! ## Properties of the three comparators -/

theorem tableLess_asymm (a b : Table) :
    tableLess a b = true → tableLess b a = true → False :=
  strLt_asymm a.Name b.Name

theorem tableLess_negtrans (a b c : Table) :
    tableLess b a = false → tableLess c b = false → tableLess c a = false :=
  strLt_negtrans a.Name b.Name c.Name

theorem tableLess_antisymm_name (a b : Table) :
    tableLess a b = false → tableLess b a = false → a.Name = b.Name :=
  fun h1 h2 => strLt_conn a.Name b.Name h1 h2

theorem columnLess_asymm (a b : Column) :
    columnLess a b = true → columnLess b a = true → False := by
  intro h1 h2
  cases hpa : a.IsPrimary <;> cases hpb : b.IsPrimary <;>
      simp [columnLess, hpa, hpb] at h1 h2 <;>
    exact strLt_asymm _ _ h1 h2

theorem columnLess_negtrans (a b c : Column) :
    columnLess b a = false → columnLess c b = false → columnLess c a = false := by
  intro h1 h2
  cases hpa : a.IsPrimary <;> cases hpb : b.IsPrimary <;> cases hpc : c.IsPrimary <;>
      simp [columnLess, hpa, hpb, hpc] at h1 h2 ⊢ <;>
    exact strLt_negtrans _ _ _ h1 h2

/-- Two columns that compare as equivalent under the column comparator
agree on the sort key: the primary flag and the name. -/
theorem columnLess_antisymm_key (a b : Column) :
    columnLess a b = false → columnLess b a = false →
      a.IsPrimary = b.IsPrimary ∧ a.Name = b.Name := by
  intro h1 h2
  cases hpa : a.IsPrimary <;> cases hpb : b.IsPrimary <;>
      simp [columnLess, hpa, hpb] at h1 h2 ⊢ <;>
    exact strLt_conn _ _ h1 h2

/-- The 4-key sort key of a reference. -/
def refKey (r : Reference) : List String :=
  [r.Source.Table, r.Source.Column, r.Target.Table, r.Target.Column]

theorem keyStep (x y : String) (rest1 rest2 : Bool) (hrec : x = y → rest1 = rest2) :
    (if x ≠ y then strLt x y else rest1) =
    (if strLt x y = true then true else if strLt y x = true then false else rest2) := by
  by_cases h : x = y
  · subst h
    simp [strLt_irrefl, hrec rfl]
  · simp [h]
    cases hxy : strLt x y
    · cases hyx : strLt y x
      · exact absurd (strLt_conn x y hxy hyx) h
      · simp
    · simp

theorem lastStep (x y : String) :
    strLt x y =
      (if strLt x y = true then true
       else if strLt y x = true then false else lexLt strLt [] []) := by
  cases hxy : strLt x y
  · cases hyx : strLt y x <;> simp [lexLt, hyx]
  · simp

/-- The Go switch in the reference comparator computes exactly the boolean
lexicographic order on the 4-key lists. -/
theorem referenceLess_eq_keyLt (a b : Reference) :
    referenceLess a b = lexLt strLt (refKey a) (refKey b) := by
  show referenceLess a b =
    lexLt strLt
      [a.Source.Table, a.Source.Column, a.Target.Table, a.Target.Column]
      [b.Source.Table, b.Source.Column, b.Target.Table, b.Target.Column]
  simp only [lexLt]
  unfold referenceLess
  refine keyStep _ _ _ _ (fun _ => ?_)
  refine keyStep _ _ _ _ (fun _ => ?_)
  refine keyStep _ _ _ _ (fun _ => ?_)
  exact lastStep _ _

theorem referenceLess_asymm (a b : Reference) :
    referenceLess a b = true → referenceLess b a = true → False := by
  rw [referenceLess_eq_keyLt, referenceLess_eq_keyLt]
  exact lexLt_asymm strLt strLt_asymm _ _

theorem referenceLess_negtrans (a b c : Reference) :
    referenceLess b a = false → referenceLess c b = false →
      referenceLess c a = false := by
  rw [referenceLess_eq_keyLt, referenceLess_eq_keyLt, referenceLess_eq_keyLt]
  intro h1 h2
  cases h : lexLt strLt (refKey c) (refKey a)
  · rfl
  · exfalso
    have htr := lexLt_trans strLt strLt_conn strLt_trans
    have hcn := lexLt_conn strLt strLt_conn
    have hax := lexLt_asymm strLt strLt_asymm
    cases h3 : lexLt strLt (refKey c) (refKey b)
    · cases h4 : lexLt strLt (refKey b) (refKey c)
      · have heq : refKey c = refKey b := hcn _ _ h3 h4
        rw [heq] at h
        rw [h] at h1
        exact Bool.noConfusion h1
      · cases h5 : lexLt strLt (refKey b) (refKey a)
        · cases h6 : lexLt strLt (refKey a) (refKey b)
          · have heq : refKey b = refKey a := hcn _ _ h5 h6
            rw [heq] at h4
            exact hax _ _ h h4
          · have := htr _ _ _ h h6
            rw [h3] at this
            exact Bool.noConfusion this
        · rw [h5] at h1
          exact Bool.noConfusion h1
    · rw [h3] at h2
      exact Bool.noConfusion h2

/-- Two references that compare as equivalent under the reference
comparator are equal: the 4-key tuple determines the whole reference. -/
theorem referenceLess_antisymm (a b : Reference) :
    referenceLess a b = false → referenceLess b a = false → a = b := by
  rw [referenceLess_eq_keyLt, referenceLess_eq_keyLt]
  intro h1 h2
  have heq : refKey a = refKey b := lexLt_conn strLt strLt_conn _ _ h1 h2
  obtain ⟨⟨ast, asc⟩, ⟨att, atc⟩⟩ := a
  obtain ⟨⟨bst, bsc⟩, ⟨btt, btc⟩⟩ := b
  simp only [refKey, List.cons.injEq, and_true] at heq
  obtain ⟨e1, e2, e3, e4⟩ := heq
  subst e1
  subst e2
  subst e3
  subst e4
  rfl

/-! ## The Sort method of the dberd Schema -/

/-- The per-table column sort performed inside the loop of Schema.Sort. -/
def Table.sortColumns (t : Table) : Table :=
  { t with Columns := sortSlice columnLess t.Columns }

/-- Model of the Go method Schema.Sort (the Normalize step): sort the
Tables slice by name, then sort the Columns slice of each table in place, then
sort the References slice.  The Go method mutates the receiver; the model
returns the resulting value. -/
def Schema.sort (s : Schema) : Schema :=
  { Tables := (sortSlice tableLess s.Tables).map Table.sortColumns,
    References := sortSlice referenceLess s.References }

/-! ## Uniqueness of sorted permutations -/

/-- Two sorted lists that are permutations of each other are equal, given
antisymmetry of the order on the members of the lists. -/
theorem eq_of_perm_of_pairwise {α : Type} (r : α → α → Prop) :
    ∀ (l₁ l₂ : List α), l₁.Perm l₂ → l₁.Pairwise r → l₂.Pairwise r →
      (∀ a ∈ l₁, ∀ b ∈ l₁, r a b → r b a → a = b) → l₁ = l₂ := by
  intro l₁
  induction l₁ with
  | nil =>
    intro l₂ p _ _ _
    exact (p.symm.eq_nil).symm
  | cons a t₁ ih =>
    intro l₂ p s₁ s₂ anti
    cases l₂ with
    | nil => exact absurd p.eq_nil (by simp)
    | cons b t₂ =>
      have hab : a = b := by
        by_cases h : a = b
        · exact h
        · have ha2 : a ∈ b :: t₂ := p.subset (List.mem_cons_self a t₁)
          have ha2' : a ∈ t₂ := by
            cases List.mem_cons.mp ha2 with
            | inl h' => exact absurd h' h
            | inr h' => exact h'
          have hrba : r b a := (List.pairwise_cons.mp s₂).1 a ha2'
          have hb1 : b ∈ a :: t₁ := p.symm.subset (List.mem_cons_self b t₂)
          have hb1' : b ∈ t₁ := by
            cases List.mem_cons.mp hb1 with
            | inl h' => exact absurd h'.symm h
            | inr h' => exact h'
          have hrab : r a b := (List.pairwise_cons.mp s₁).1 b hb1'
          exact anti a (List.mem_cons_self a t₁) b hb1 hrab hrba
      subst hab
      have ptail : t₁.Perm t₂ := p.cons_inv
      have htail : t₁ = t₂ :=
        ih t₂ ptail (List.pairwise_cons.mp s₁).2 (List.pairwise_cons.mp s₂).2
          (fun x hx y hy => anti x (List.mem_cons_of_mem a hx) y (List.mem_cons_of_mem a hy))
      rw [htail]

/-! ## Order facts about the sorted schema -/

theorem strLe_of_not_lt (x y : String) (h : strLt y x = false) :
    strLe x y = true := by
  simp [strLe, h]

theorem strLt_ne (x y : String) (h : strLt x y = true) : x ≠ y := by
  intro he
  rw [he, strLt_irrefl] at h
  exact Bool.noConfusion h

/-- What column i before column j in a sorted Columns slice means: a
non-primary column is never followed by a primary one, and inside a
partition with equal primary flags the names ascend. -/
theorem columnLe_spec (a b : Column) (h : columnLess b a = false) :
    (a.IsPrimary = false → b.IsPrimary = false) ∧
      (a.IsPrimary = b.IsPrimary → strLe a.Name b.Name = true) := by
  cases hpa : a.IsPrimary <;> cases hpb : b.IsPrimary <;>
      simp [columnLess, hpa, hpb, strLe] at h ⊢ <;>
    simp [h]

/-- The 4-key lexicographic order on references, spelled out the way the
specification states it: priority source table, source column, target
table, target column. -/
def ReferenceLe (a b : Reference) : Prop :=
  strLt a.Source.Table b.Source.Table = true ∨
    (a.Source.Table = b.Source.Table ∧
      (strLt a.Source.Column b.Source.Column = true ∨
        (a.Source.Column = b.Source.Column ∧
          (strLt a.Target.Table b.Target.Table = true ∨
            (a.Target.Table = b.Target.Table ∧
              strLe a.Target.Column b.Target.Column = true)))))

theorem referenceLe_spec (a b : Reference) (h : referenceLess b a = false) :
    ReferenceLe a b := by
  unfold referenceLess at h
  unfold ReferenceLe
  cases h1 : strLt a.Source.Table b.Source.Table
  · cases h1' : strLt b.Source.Table a.Source.Table
    · have he1 : a.Source.Table = b.Source.Table := strLt_conn _ _ h1 h1'
      rw [if_neg (fun hne => hne he1.symm)] at h
      refine Or.inr ⟨he1, ?_⟩
      cases h2 : strLt a.Source.Column b.Source.Column
      · cases h2' : strLt b.Source.Column a.Source.Column
        · have he2 : a.Source.Column = b.Source.Column := strLt_conn _ _ h2 h2'
          rw [if_neg (fun hne => hne he2.symm)] at h
          refine Or.inr ⟨he2, ?_⟩
          cases h3 : strLt a.Target.Table b.Target.Table
          · cases h3' : strLt b.Target.Table a.Target.Table
            · have he3 : a.Target.Table = b.Target.Table := strLt_conn _ _ h3 h3'
              rw [if_neg (fun hne => hne he3.symm)] at h
              exact Or.inr ⟨he3, strLe_of_not_lt _ _ h⟩
            · rw [if_pos (strLt_ne _ _ h3'), h3'] at h
              exact Bool.noConfusion h
          · exact Or.inl rfl
        · rw [if_pos (strLt_ne _ _ h2'), h2'] at h
          exact Bool.noConfusion h
      · exact Or.inl rfl
    · rw [if_pos (strLt_ne _ _ h1'), h1'] at h
      exact Bool.noConfusion h
  · exact Or.inl rfl

/-! ## Idempotence ingredients -/

theorem sortColumns_idem (t : Table) :
    Table.sortColumns (Table.sortColumns t) = Table.sortColumns t := by
  unfold Table.sortColumns
  simp only
  congr 1
  exact sortSlice_of_pairwise columnLess
    (sortSlice_pairwise columnLess columnLess_asymm columnLess_negtrans t.Columns)

theorem sortColumns_Name (t : Table) : (Table.sortColumns t).Name = t.Name := rfl

/-- The Tables list of a sorted schema is pairwise ordered under the table
comparator. -/
theorem sorted_tables_pairwise (s : Schema) :
    (Schema.sort s).Tables.Pairwise (leOf tableLess) := by
  show ((sortSlice tableLess s.Tables).map Table.sortColumns).Pairwise (leOf tableLess)
  rw [List.pairwise_map]
  have hp := sortSlice_pairwise tableLess tableLess_asymm tableLess_negtrans s.Tables
  exact hp.imp (fun h => h)

/-! ## The claims about Schema.Sort -/

/-- C1: in every Table of a sorted Schema the Columns are ordered with all
primary-key columns before all non-primary columns, within each of the two
partitions ascending by column name; in particular, for positions i < j,
if column i is not primary then column j is not primary either. -/
theorem sort_columns_primary_first (s : Schema) (t : Table)
    (ht : t ∈ (Schema.sort s).Tables) :
    t.Columns.Pairwise (fun a b =>
      (a.IsPrimary = false → b.IsPrimary = false) ∧
        (a.IsPrimary = b.IsPrimary → strLe a.Name b.Name = true)) := by
  obtain ⟨u, _, rfl⟩ := List.mem_map.mp ht
  have hp : (sortSlice columnLess u.Columns).Pairwise (leOf columnLess) :=
    sortSlice_pairwise columnLess columnLess_asymm columnLess_negtrans u.Columns
  exact hp.imp (fun h => columnLe_spec _ _ h)

/-- C2: after Sort, the sequence of Table qualified names is non-decreasing
under plain case-sensitive lexicographic string ordering. -/
theorem sort_tables_name_nondecreasing (s : Schema) :
    (Schema.sort s).Tables.Pairwise (fun a b => strLe a.Name b.Name = true) :=
  (sorted_tables_pairwise s).imp (fun h => strLe_of_not_lt _ _ h)

/-- C3: after Sort, consecutive References never decrease under the 4-key
lexicographic tuple (source table, source column, target table, target
column), and duplicate references are all retained: every Reference value
occurs exactly as often as before. -/
theorem sort_references_ordered_and_retained (s : Schema) :
    (Schema.sort s).References.Pairwise ReferenceLe ∧
      ∀ r : Reference,
        (Schema.sort s).References.count r = s.References.count r := by
  constructor
  · have hp : (sortSlice referenceLess s.References).Pairwise (leOf referenceLess) :=
      sortSlice_pairwise referenceLess referenceLess_asymm referenceLess_negtrans
        s.References
    exact hp.imp (fun h => referenceLe_spec _ _ h)
  · intro r
    exact (sortSlice_perm referenceLess s.References).count_eq r

/-- C4: Sort is idempotent. -/
theorem sort_idempotent (s : Schema) :
    Schema.sort (Schema.sort s) = Schema.sort s := by
  unfold Schema.sort
  simp only
  congr 1
  · have hfix : sortSlice tableLess
        ((sortSlice tableLess s.Tables).map Table.sortColumns) =
        (sortSlice tableLess s.Tables).map Table.sortColumns :=
      sortSlice_of_pairwise tableLess (sorted_tables_pairwise s)
    rw [hfix, List.map_map]
    exact List.map_congr_left (fun t _ => sortColumns_idem t)
  · exact sortSlice_of_pairwise referenceLess
      (sortSlice_pairwise referenceLess referenceLess_asymm referenceLess_negtrans
        s.References)

/-- The content of a table disregarding column order: its name together
with the multiset of its columns. -/
def tableContent (t : Table) : String × Multiset Column :=
  (t.Name, (t.Columns : Multiset Column))

/-- C6: Sort is a pure reordering: the multiset of Tables (each taken as
its name with its multiset of Columns) and the multiset of References are
unchanged. -/
theorem sort_content_preservation (s : Schema) :
    (((Schema.sort s).Tables.map tableContent : List (String × Multiset Column)) :
        Multiset (String × Multiset Column)) =
      ((s.Tables.map tableContent : List (String × Multiset Column)) :
        Multiset (String × Multiset Column)) ∧
    (((Schema.sort s).References : List Reference) : Multiset Reference) =
      ((s.References : List Reference) : Multiset Reference) := by
  constructor
  · have h1 : ∀ t : Table, tableContent (Table.sortColumns t) = tableContent t := by
      intro t
      unfold tableContent Table.sortColumns
      exact Prod.ext rfl (Multiset.coe_eq_coe.mpr (sortSlice_perm columnLess t.Columns))
    show (((sortSlice tableLess s.Tables).map Table.sortColumns).map tableContent :
        Multiset (String × Multiset Column)) = _
    rw [List.map_map]
    rw [show (tableContent ∘ Table.sortColumns) = tableContent from funext h1]
    exact Multiset.coe_eq_coe.mpr ((sortSlice_perm tableLess s.Tables).map tableContent)
  · exact Multiset.coe_eq_coe.mpr (sortSlice_perm referenceLess s.References)

/-! ## Order-independence of the input

Sort is not insensitive to every permutation of the input: two distinct
tables may share a name (tables are never merged or deduplicated), and
then their relative order after sorting depends on their input order.
The property does hold once the sort keys identify the entries: table
names pairwise distinct, and inside each table no two distinct columns
agreeing on both name and primary flag. -/

/-- A duplicate-named table holding column a. -/
def tDupA : Table := ⟨"t", [⟨"a", "", "int", false⟩]⟩

/-- A duplicate-named table holding column b. -/
def tDupB : Table := ⟨"t", [⟨"b", "", "int", false⟩]⟩

/-- A schema with two distinct tables of the same name. -/
def sDup1 : Schema := ⟨[tDupA, tDupB], []⟩

/-- The same schema with its Tables list permuted. -/
def sDup2 : Schema := ⟨[tDupB, tDupA], []⟩

/-- C5 counterexample: a permutation of the Tables list of a Schema on
which Sort yields a different result, refuting insensitivity to input
order for arbitrary Schemas. -/
theorem sort_order_insensitivity_counterexample :
    sDup2.Tables.Perm sDup1.Tables ∧
      sDup2.References = sDup1.References ∧
      Schema.sort sDup2 ≠ Schema.sort sDup1 :=
  ⟨by decide, rfl, by decide⟩

/-- A permutation of a Tables list in which, additionally, the own
Columns list of each table is permuted. -/
def TablesPermUpToColumns (l1 l2 : List Table) : Prop :=
  ∃ l, l1.Perm l ∧
    List.Forall₂ (fun a b => a.Name = b.Name ∧ a.Columns.Perm b.Columns) l l2

/-- Tables whose columns are permutations of each other and whose column
sort keys are injective have equal sorted columns. -/
theorem sortColumns_eq_of_perm (t u : Table) (hname : t.Name = u.Name)
    (hperm : t.Columns.Perm u.Columns)
    (hkey : t.Columns.Pairwise
      (fun a b => a.Name = b.Name → a.IsPrimary = b.IsPrimary → a = b)) :
    Table.sortColumns t = Table.sortColumns u := by
  have hsym : Symmetric
      (fun a b : Column => a.Name = b.Name → a.IsPrimary = b.IsPrimary → a = b) :=
    fun a b h h1 h2 => (h h1.symm h2.symm).symm
  have hcols : sortSlice columnLess t.Columns = sortSlice columnLess u.Columns := by
    refine eq_of_perm_of_pairwise (leOf columnLess) _ _
      (((sortSlice_perm columnLess t.Columns).trans hperm).trans
        (sortSlice_perm columnLess u.Columns).symm)
      (sortSlice_pairwise columnLess columnLess_asymm columnLess_negtrans t.Columns)
      (sortSlice_pairwise columnLess columnLess_asymm columnLess_negtrans u.Columns)
      ?_
    intro a ha b hb h1 h2
    have ha' : a ∈ t.Columns := (sortSlice_perm columnLess t.Columns).subset ha
    have hb' : b ∈ t.Columns := (sortSlice_perm columnLess t.Columns).subset hb
    have hk := columnLess_antisymm_key b a h1 h2
    by_cases he : a = b
    · exact he
    · exact hkey.forall hsym ha' hb' he hk.2.symm hk.1.symm
  unfold Table.sortColumns
  rw [hname, hcols]

/-- Mapping the column sort across a Forall₂ of name-equal,
column-permuted tables yields equal lists, given key injectivity. -/
theorem map_sortColumns_eq_of_forall₂ :
    ∀ (l1 l2 : List Table),
      List.Forall₂ (fun a b => a.Name = b.Name ∧ a.Columns.Perm b.Columns) l1 l2 →
      (∀ t ∈ l1, t.Columns.Pairwise
        (fun a b => a.Name = b.Name → a.IsPrimary = b.IsPrimary → a = b)) →
      l1.map Table.sortColumns = l2.map Table.sortColumns := by
  intro l1
  induction l1 with
  | nil =>
    intro l2 hf _
    cases hf
    rfl
  | cons a t ih =>
    intro l2 hf hkeys
    cases hf with
    | cons hab hrest =>
      simp only [List.map]
      rw [sortColumns_eq_of_perm a _ hab.1 hab.2 (hkeys a (List.mem_cons_self a t)),
        ih _ hrest (fun x hx => hkeys x (List.mem_cons_of_mem a hx))]

/-- Mapping the name across a Forall₂ of name-equal tables yields equal
name lists. -/
theorem map_name_eq_of_forall₂ :
    ∀ (l1 l2 : List Table),
      List.Forall₂ (fun a b => a.Name = b.Name ∧ a.Columns.Perm b.Columns) l1 l2 →
      l1.map Table.Name = l2.map Table.Name := by
  intro l1
  induction l1 with
  | nil =>
    intro l2 hf
    cases hf
    rfl
  | cons a t ih =>
    intro l2 hf
    cases hf with
    | cons hab hrest =>
      simp only [List.map]
      rw [hab.1, ih _ hrest]

/-- C5 amended: Sort is insensitive to permutations of the Tables list,
of the Columns list of each table, and of the References list, provided the
sort keys identify the entries: no two tables of the schema share a name,
and no two distinct columns of any one table agree on both name and
primary flag.  (References need no such condition: the 4-key tuple is the
whole reference.) -/
theorem sort_order_insensitive_of_unique_keys (s1 s2 : Schema)
    (htab : TablesPermUpToColumns s1.Tables s2.Tables)
    (href : s1.References.Perm s2.References)
    (hnames : (s1.Tables.map Table.Name).Nodup)
    (hcols : ∀ t ∈ s1.Tables, t.Columns.Pairwise
      (fun a b => a.Name = b.Name → a.IsPrimary = b.IsPrimary → a = b)) :
    Schema.sort s2 = Schema.sort s1 := by
  obtain ⟨l, hperm, hf⟩ := htab
  have hmapseq : l.map Table.sortColumns = s2.Tables.map Table.sortColumns :=
    map_sortColumns_eq_of_forall₂ l s2.Tables hf
      (fun t ht => hcols t (hperm.symm.subset ht))
  have hnameseq : l.map Table.Name = s2.Tables.map Table.Name :=
    map_name_eq_of_forall₂ l s2.Tables hf
  -- the two sorted Tables lists
  have htperm : (Schema.sort s2).Tables.Perm (Schema.sort s1).Tables := by
    show ((sortSlice tableLess s2.Tables).map Table.sortColumns).Perm
      ((sortSlice tableLess s1.Tables).map Table.sortColumns)
    refine ((sortSlice_perm tableLess s2.Tables).map Table.sortColumns).trans
      (List.Perm.trans ?_ ((sortSlice_perm tableLess s1.Tables).map
        Table.sortColumns).symm)
    rw [← hmapseq]
    exact (hperm.map Table.sortColumns).symm
  have hnodup2 : ((Schema.sort s2).Tables.map Table.Name).Nodup := by
    have h1 : ((Schema.sort s2).Tables.map Table.Name).Perm
        (s1.Tables.map Table.Name) := by
      show (((sortSlice tableLess s2.Tables).map Table.sortColumns).map
        Table.Name).Perm _
      rw [List.map_map]
      have : (Table.Name ∘ Table.sortColumns) = Table.Name := funext (fun t => rfl)
      rw [this]
      refine ((sortSlice_perm tableLess s2.Tables).map Table.Name).trans ?_
      rw [← hnameseq]
      exact (hperm.map Table.Name).symm
    exact h1.nodup_iff.mpr hnames
  have hinj : ∀ a ∈ (Schema.sort s2).Tables, ∀ b ∈ (Schema.sort s2).Tables,
      a.Name = b.Name → a = b := by
    intro a ha b hb he
    by_cases heq : a = b
    · exact heq
    · have hpw : (Schema.sort s2).Tables.Pairwise (fun a b => a.Name ≠ b.Name) :=
        List.pairwise_map.mp hnodup2
      have hsymne : Symmetric (fun a b : Table => a.Name ≠ b.Name) :=
        fun x y h h2 => h h2.symm
      exact absurd he (hpw.forall hsymne ha hb heq)
  have htables : (Schema.sort s2).Tables = (Schema.sort s1).Tables := by
    refine eq_of_perm_of_pairwise (leOf tableLess) _ _ htperm
      (sorted_tables_pairwise s2) (sorted_tables_pairwise s1) ?_
    intro a ha b hb h1 h2
    exact hinj a ha b hb (tableLess_antisymm_name a b h2 h1)
  have hrefs : (Schema.sort s2).References = (Schema.sort s1).References := by
    show sortSlice referenceLess s2.References = sortSlice referenceLess s1.References
    refine eq_of_perm_of_pairwise (leOf referenceLess) _ _
      (((sortSlice_perm referenceLess s2.References).trans href.symm).trans
        (sortSlice_perm referenceLess s1.References).symm)
      (sortSlice_pairwise referenceLess referenceLess_asymm referenceLess_negtrans
        s2.References)
      (sortSlice_pairwise referenceLess referenceLess_asymm referenceLess_negtrans
        s1.References)
      (fun a _ b _ h1 h2 => referenceLess_antisymm a b h2 h1)
  calc Schema.sort s2
      = ⟨(Schema.sort s2).Tables, (Schema.sort s2).References⟩ := rfl
    _ = ⟨(Schema.sort s1).Tables, (Schema.sort s1).References⟩ := by
        rw [htables, hrefs]
    _ = Schema.sort s1 := rfl

/-! ## Concrete witness schemas -/

/-- The scenario table: one primary column id and one non-primary name,
supplied in order name before id. -/
def tScenario : Table := ⟨"t", [⟨"name", "", "text", false⟩, ⟨"id", "", "int", true⟩]⟩

/-- The scenario table after sorting: id before name. -/
def tScenarioSorted : Table :=
  ⟨"t", [⟨"id", "", "int", true⟩, ⟨"name", "", "text", false⟩]⟩

/-- A one-table schema holding the scenario table. -/
def sScenario : Schema := ⟨[tScenario], []⟩

/-- C1 witness: the sorted scenario schema contains the reordered table,
and its columns satisfy the primary-first pairwise property. -/
theorem sort_columns_primary_first_witness :
    tScenarioSorted ∈ (Schema.sort sScenario).Tables ∧
      tScenarioSorted.Columns.Pairwise (fun a b =>
        (a.IsPrimary = false → b.IsPrimary = false) ∧
          (a.IsPrimary = b.IsPrimary → strLe a.Name b.Name = true)) :=
  ⟨by decide, sort_columns_primary_first sScenario tScenarioSorted (by decide)⟩

/-- Table a_table of the order-independence witness. -/
def tWitA : Table :=
  ⟨"a_table", [⟨"a_column", "", "text", false⟩, ⟨"z_column", "", "text", false⟩]⟩

/-- Table z_table of the order-independence witness. -/
def tWitZ : Table :=
  ⟨"z_table", [⟨"a_column", "", "text", false⟩, ⟨"z_column", "", "text", false⟩]⟩

/-- Table z_table with its columns permuted. -/
def tWitZrev : Table :=
  ⟨"z_table", [⟨"z_column", "", "text", false⟩, ⟨"a_column", "", "text", false⟩]⟩

/-- A schema with distinct table names and distinct column names. -/
def sWit1 : Schema :=
  ⟨[tWitA, tWitZ], [⟨⟨"z_table", "z_column"⟩, ⟨"a_table", "a_column"⟩⟩]⟩

/-- The same schema with its Tables list permuted and the columns of
z_table permuted. -/
def sWit2 : Schema :=
  ⟨[tWitZrev, tWitA], [⟨⟨"z_table", "z_column"⟩, ⟨"a_table", "a_column"⟩⟩]⟩

/-- C5 witness: the two permuted variants of the unique-key schema sort to
the same result. -/
theorem sort_order_insensitive_witness :
    TablesPermUpToColumns sWit1.Tables sWit2.Tables ∧
      sWit1.References.Perm sWit2.References ∧
      (sWit1.Tables.map Table.Name).Nodup ∧
      (∀ t ∈ sWit1.Tables, t.Columns.Pairwise
        (fun a b => a.Name = b.Name → a.IsPrimary = b.IsPrimary → a = b)) ∧
      Schema.sort sWit2 = Schema.sort sWit1 := by
  have htab : TablesPermUpToColumns sWit1.Tables sWit2.Tables :=
    ⟨[tWitZ, tWitA], by decide,
      List.Forall₂.cons ⟨rfl, by decide⟩
        (List.Forall₂.cons ⟨rfl, by decide⟩ List.Forall₂.nil)⟩
  exact ⟨htab, by decide, by decide, by decide,
    sort_order_insensitive_of_unique_keys sWit1 sWit2 htab (by decide) (by decide)
      (by decide)⟩

/-! ## Extractor backends: presence of the References collection

A Go Schema value as an extractor builds it distinguishes a nil
References slice (the field was never assigned and keeps its zero value)
from an assigned, possibly empty slice.  GoSchema keeps that distinction
with an Option. -/

/-- A Schema under construction by an extractor: none models a nil
References slice, some an assigned slice. -/
structure GoSchema where
  Tables : List Table
  References : Option (List Reference)
deriving DecidableEq

namespace Clickhouse

/-- One scanned row of the system.columns query of the clickhouse
source. -/
structure TableRow where
  database : String
  tableName : String
  columnName : String
  dataType : String
  defaultExpression : Option String
  comment : Option String
  isPrimary : Bool
deriving DecidableEq

/-- The grouping key used by tableRowsToSchemaTables: database dot
table. -/
def rowKey (r : TableRow) : String := r.database ++ "." ++ r.tableName

/-- The Column built from one row: the definition is the data type plus an
optional DEFAULT clause; the comment is copied when the scanned pointer
was non-nil. -/
def rowColumn (r : TableRow) : Column :=
  { Name := r.columnName,
    Comment :=
      match r.comment with
      | some c => c
      | none => "",
    Definition := r.dataType ++
      (match r.defaultExpression with
       | some d => if d = "" then "" else " DEFAULT " ++ d
       | none => ""),
    IsPrimary := r.isPrimary }

/-- The distinct grouping keys in first-encounter order.  The Go code
collects tables in a map and emits them in map iteration order, which is
unspecified; first-encounter order is one representative emission order
(no claim in this development depends on the emitted table order). -/
def tableKeys (rows : List TableRow) : List String :=
  rows.foldl (fun acc r => if rowKey r ∈ acc then acc else acc ++ [rowKey r]) []

/-- clickhouse tableRowsToSchemaTables: group the rows by table key and
build one Table per key with its columns in row order. -/
def tableRowsToSchemaTables (rows : List TableRow) : List Table :=
  (tableKeys rows).map (fun k =>
    { Name := k,
      Columns := rows.filterMap
        (fun r => if rowKey r = k then some (rowColumn r) else none) })

/-- clickhouse Source.ExtractSchema on the scanned rows: only the Tables
field of the schema is ever assigned; the References field keeps the Go
zero value, a nil slice. -/
def ExtractSchema (rows : List TableRow) : GoSchema :=
  { Tables := tableRowsToSchemaTables rows, References := none }

end Clickhouse

namespace Mongodb

/-- mongodb Source.ExtractSchema given the collection tables produced by
extractCollections (an I/O traversal of the mongo client): only the
Tables field of the schema is ever assigned; the References field keeps
the Go zero value, a nil slice. -/
def ExtractSchema (tables : List Table) : GoSchema :=
  { Tables := tables, References := none }

end Mongodb

namespace Cockroach

/-- One scanned row of the information_schema.columns query of the
cockroach source. -/
structure TableRow where
  tableSchema : String
  tableName : String
  columnName : String
  dataType : String
  isNullable : String
  columnDefault : Option String
  columnComment : Option String
  isPrimary : Bool
deriving DecidableEq

/-- The grouping key used by tableRowsToSchemaTables: schema dot table. -/
def rowKey (r : TableRow) : String := r.tableSchema ++ "." ++ r.tableName

/-- The Column built from one row: data type, then NOT NULL when the
column is not nullable, then an optional DEFAULT clause; the comment is
copied when the scanned pointer was non-nil. -/
def rowColumn (r : TableRow) : Column :=
  { Name := r.columnName,
    Comment :=
      match r.columnComment with
      | some c => c
      | none => "",
    Definition := r.dataType ++
      (if r.isNullable = "NO" then " NOT NULL" else "") ++
      (match r.columnDefault with
       | some d => if d = "" then "" else " DEFAULT " ++ d
       | none => ""),
    IsPrimary := r.isPrimary }

/-- The distinct grouping keys in first-encounter order (see the
clickhouse remark on Go map iteration order). -/
def tableKeys (rows : List TableRow) : List String :=
  rows.foldl (fun acc r => if rowKey r ∈ acc then acc else acc ++ [rowKey r]) []

/-- cockroach tableRowsToSchemaTables: group the rows by table key and
build one Table per key with its columns in row order. -/
def tableRowsToSchemaTables (rows : List TableRow) : List Table :=
  (tableKeys rows).map (fun k =>
    { Name := k,
      Columns := rows.filterMap
        (fun r => if rowKey r = k then some (rowColumn r) else none) })

/-- One scanned row of the foreign-key query of the cockroach source. -/
structure ReferenceRow where
  sourceSchema : String
  sourceTable : String
  sourceColumn : String
  targetSchema : String
  targetTable : String
  targetColumn : String
deriving DecidableEq

/-- cockroach referenceRowsToSchemaReferences: build one Reference per
scanned row; the result is an assigned slice even when there are no
rows. -/
def referenceRowsToSchemaReferences (rows : List ReferenceRow) : List Reference :=
  rows.map (fun r =>
    { Source := { Table := r.sourceSchema ++ "." ++ r.sourceTable,
                  Column := r.sourceColumn },
      Target := { Table := r.targetSchema ++ "." ++ r.targetTable,
                  Column := r.targetColumn } })

/-- cockroach Source.ExtractSchema on the scanned rows: both fields are
assigned; References receives the slice built by
referenceRowsToSchemaReferences, which is non-nil even when empty. -/
def ExtractSchema (trows : List TableRow) (rrows : List ReferenceRow) : GoSchema :=
  { Tables := tableRowsToSchemaTables trows,
    References := some (referenceRowsToSchemaReferences rrows) }

end Cockroach

/-- C7 counterexample: the clickhouse and mongodb extractors leave the
References field nil (absent), which is not an empty present
collection. -/
theorem extract_references_nil_counterexample :
    (Clickhouse.ExtractSchema []).References = none ∧
      (Mongodb.ExtractSchema []).References = none ∧
      (none : Option (List Reference)) ≠ some [] :=
  ⟨rfl, rfl, by decide⟩

/-- C7 amended: the extractors that extract references (cockroach here;
mysql and postgres share the code shape) represent no foreign keys found
as an assigned empty References collection, while the clickhouse and
mongodb extractors never assign References and return it nil/absent. -/
theorem extract_references_presence :
    (∀ rows : List Clickhouse.TableRow,
        (Clickhouse.ExtractSchema rows).References = none) ∧
      (∀ tables : List Table, (Mongodb.ExtractSchema tables).References = none) ∧
      (∀ trows : List Cockroach.TableRow,
        (Cockroach.ExtractSchema trows []).References = some []) ∧
      (∀ (trows : List Cockroach.TableRow) (rrows : List Cockroach.ReferenceRow),
        (Cockroach.ExtractSchema trows rrows).References =
          some (Cockroach.referenceRowsToSchemaReferences rrows)) :=
  ⟨fun _ => rfl, fun _ => rfl, fun _ => rfl, fun _ _ => rfl⟩

/-! ## Target backends: formatting and rendering

The Go field tagged Type of FormattedSchema is named Typ here because
Type is reserved in Lean.  The byte slices produced by the external
marshaller, template engine and diagram engine are immaterial to every claim,
so those collaborators are abstracted as function parameters; the error
plumbing around them follows the Go code. -/

/-- Go struct FormattedSchema: a format type tag and the formatted
bytes. -/
structure FormattedSchema where
  Typ : String
  Data : List UInt8
deriving DecidableEq

/-- Go struct TargetCapabilities. -/
structure TargetCapabilities where
  Format : Bool
  Render : Bool
deriving DecidableEq

namespace JsonTarget

/-- The json targetType constant. -/
def targetType : String := "json"

/-- json Target.Capabilities. -/
def Capabilities : TargetCapabilities := { Format := true, Render := false }

/-- json Target.FormatSchema with the external JSON marshaller abstracted
as a parameter: a marshal error is wrapped and returned with a zero
FormattedSchema, otherwise the data is tagged with the json target
type. -/
def FormatSchema (marshal : Schema → Except String (List UInt8)) (s : Schema) :
    Except String FormattedSchema :=
  match marshal s with
  | .error e => .error ("marshalling schema to json: " ++ e)
  | .ok d => .ok { Typ := targetType, Data := d }

/-- json Target.RenderSchema: the Go method ignores its arguments and
returns the pair of a nil byte slice and a fresh unsupported error.  The
first component models the returned slice (none is nil), the second the
returned error value (none would be a nil error). -/
def RenderSchema (_ : FormattedSchema) : Option (List UInt8) × Option String :=
  (none, some "unsupported")

end JsonTarget

namespace PlantumlTarget

/-- The plantuml targetType constant. -/
def targetType : String := "plantuml"

/-- plantuml Target.Capabilities. -/
def Capabilities : TargetCapabilities := { Format := true, Render := false }

/-- plantuml Target.FormatSchema with the template engine abstracted as a
parameter: a template error is wrapped and returned with a zero
FormattedSchema, otherwise the buffer is tagged with the plantuml target
type. -/
def FormatSchema (tmpl : Schema → Except String (List UInt8)) (s : Schema) :
    Except String FormattedSchema :=
  match tmpl s with
  | .error e => .error ("executing template: " ++ e)
  | .ok buf => .ok { Typ := targetType, Data := buf }

/-- plantuml Target.RenderSchema: nil bytes and a fresh unsupported
error. -/
def RenderSchema (_ : FormattedSchema) : Option (List UInt8) × Option String :=
  (none, some "unsupported")

end PlantumlTarget

namespace MermaidTarget

/-- The mermaid targetType constant. -/
def targetType : String := "mermaid"

/-- mermaid Target.Capabilities. -/
def Capabilities : TargetCapabilities := { Format := true, Render := false }

/-- mermaid Target.FormatSchema with the template engine abstracted as a
parameter. -/
def FormatSchema (tmpl : Schema → Except String (List UInt8)) (s : Schema) :
    Except String FormattedSchema :=
  match tmpl s with
  | .error e => .error ("executing template: " ++ e)
  | .ok buf => .ok { Typ := targetType, Data := buf }

/-- mermaid Target.RenderSchema: nil bytes and a fresh unsupported
error. -/
def RenderSchema (_ : FormattedSchema) : Option (List UInt8) × Option String :=
  (none, some "unsupported")

end MermaidTarget

namespace D2Target

/-- The d2 targetType constant. -/
def targetType : String := "d2"

/-- d2 Target.Capabilities. -/
def Capabilities : TargetCapabilities := { Format := true, Render := true }

/-- d2 Target.FormatSchema with the template engine abstracted as a
parameter. -/
def FormatSchema (tmpl : Schema → Except String (List UInt8)) (s : Schema) :
    Except String FormattedSchema :=
  match tmpl s with
  | .error e => .error ("executing template: " ++ e)
  | .ok buf => .ok { Typ := targetType, Data := buf }

/-- The errors d2 Target.RenderSchema can return: the distinct
UnsupportedFormatError with its given and expected type tags, or a
wrapped engine error. -/
inductive RenderError where
  | unsupportedFormat (given expected : String)
  | wrapped (msg : String)
deriving DecidableEq

/-- d2 Target.RenderSchema with the external compile and render engines
abstracted as parameters: a type tag different from the d2 target type
yields the distinct UnsupportedFormatError before anything else runs;
engine failures are wrapped. -/
def RenderSchema (compile render : List UInt8 → Except String (List UInt8))
    (s : FormattedSchema) : Except RenderError (List UInt8) :=
  if s.Typ ≠ targetType then .error (.unsupportedFormat s.Typ targetType)
  else
    match compile s.Data with
    | .error e => .error (.wrapped ("compiling diagram: " ++ e))
    | .ok d =>
      match render d with
      | .error e => .error (.wrapped ("rendering diagram: " ++ e))
      | .ok out => .ok out

end D2Target

/-- C8: the three format-only targets declare Render false and their
RenderSchema, on any formatted schema, returns nil output bytes together
with a non-nil unsupported error; the functions are total, so no call
panics or silently succeeds. -/
theorem render_unsupported_for_format_only_targets (fs : FormattedSchema) :
    JsonTarget.Capabilities.Render = false ∧
      JsonTarget.RenderSchema fs = (none, some "unsupported") ∧
      PlantumlTarget.Capabilities.Render = false ∧
      PlantumlTarget.RenderSchema fs = (none, some "unsupported") ∧
      MermaidTarget.Capabilities.Render = false ∧
      MermaidTarget.RenderSchema fs = (none, some "unsupported") :=
  ⟨rfl, rfl, rfl, rfl, rfl, rfl⟩

/-- C10: whenever the FormatSchema of a target succeeds, the returned
FormattedSchema carries the own type constant of that target, whatever the
external marshaller or template engine produced; consequently feeding a
successful d2 FormatSchema result into d2 RenderSchema never yields the
type-mismatch UnsupportedFormatError. -/
theorem format_schema_type_tag
    (marshal tmplD2 tmplPU tmplMM : Schema → Except String (List UInt8))
    (s : Schema) (fs : FormattedSchema) :
    (JsonTarget.FormatSchema marshal s = .ok fs → fs.Typ = JsonTarget.targetType) ∧
      (D2Target.FormatSchema tmplD2 s = .ok fs →
        fs.Typ = D2Target.targetType ∧
          ∀ (compile render : List UInt8 → Except String (List UInt8))
            (g e : String),
            D2Target.RenderSchema compile render fs ≠
              Except.error (D2Target.RenderError.unsupportedFormat g e)) ∧
      (PlantumlTarget.FormatSchema tmplPU s = .ok fs →
        fs.Typ = PlantumlTarget.targetType) ∧
      (MermaidTarget.FormatSchema tmplMM s = .ok fs →
        fs.Typ = MermaidTarget.targetType) := by
  refine ⟨?_, ?_, ?_, ?_⟩
  · intro h
    unfold JsonTarget.FormatSchema at h
    cases hm : marshal s with
    | error e => rw [hm] at h; exact Except.noConfusion h
    | ok d =>
      rw [hm] at h
      cases h
      rfl
  · intro h
    unfold D2Target.FormatSchema at h
    cases hm : tmplD2 s with
    | error e => rw [hm] at h; exact Except.noConfusion h
    | ok buf =>
      rw [hm] at h
      cases h
      refine ⟨rfl, ?_⟩
      intro compile render g e
      unfold D2Target.RenderSchema
      rw [if_neg (fun hne => hne rfl)]
      cases hc : compile ({ Typ := D2Target.targetType, Data := buf } :
          FormattedSchema).Data with
      | error e2 => simp
      | ok d =>
        cases hr : render d with
        | error e3 => simp [hr]
        | ok out => simp [hr]
  · intro h
    unfold PlantumlTarget.FormatSchema at h
    cases hm : tmplPU s with
    | error e => rw [hm] at h; exact Except.noConfusion h
    | ok buf =>
      rw [hm] at h
      cases h
      rfl
  · intro h
    unfold MermaidTarget.FormatSchema at h
    cases hm : tmplMM s with
    | error e => rw [hm] at h; exact Except.noConfusion h
    | ok buf =>
      rw [hm] at h
      cases h
      rfl

/-- C10 witness: at a concrete marshaller and template engine that return
empty byte output, the json and d2 FormatSchema results carry the json
and d2 type tags, and the d2 result passes the RenderSchema type
guard. -/
theorem format_schema_type_tag_witness :
    ((⟨"d2", []⟩ : FormattedSchema).Typ = D2Target.targetType ∧
        ∀ (compile render : List UInt8 → Except String (List UInt8))
          (g e : String),
          D2Target.RenderSchema compile render ⟨"d2", []⟩ ≠
            Except.error (D2Target.RenderError.unsupportedFormat g e)) ∧
      (⟨"json", []⟩ : FormattedSchema).Typ = JsonTarget.targetType :=
  ⟨(format_schema_type_tag (fun _ => .ok []) (fun _ => .ok []) (fun _ => .ok [])
      (fun _ => .ok []) ⟨[], []⟩ ⟨"d2", []⟩).2.1 rfl,
    (format_schema_type_tag (fun _ => .ok []) (fun _ => .ok []) (fun _ => .ok [])
      (fun _ => .ok []) ⟨[], []⟩ ⟨"json", []⟩).1 rfl⟩

/-! ## Connection ownership and the Close operation -/

/-- The externally observable state of an underlying database
connection. -/
structure ConnState where
  closed : Bool
deriving DecidableEq

/-- The ownership-tracking core shared by the source backends (cockroach,
mysql, clickhouse with an sql.DB, mongodb with a client): the closer
field, nil (none) when the connection was supplied externally.  A closer
maps the connection state to the new state and the returned error value
(none is a nil error). -/
structure Source where
  closer : Option (ConnState → ConnState × Option String)

/-- Closing the owned connection (sql.DB Close, mongo client Disconnect):
marks the connection closed and returns a nil error; repeated calls keep
it closed.  Modelled from the spec and the database/sql contract: the
underlying connection object is an external collaborator. -/
def dbClose : ConnState → ConnState × Option String :=
  fun _ => ({ closed := true }, none)

/-- NewSource: the backend opens its own connection and stores its closer
in the closer field. -/
def NewSource : Source := { closer := some dbClose }

/-- NewSourceFromDB and NewSourceFromClient: the externally supplied
connection is stored without a closer; the closer field keeps its zero
value nil. -/
def NewSourceFromDB : Source := { closer := none }

/-- Source.Close: when the closer field is nil return a nil error and do
nothing, otherwise delegate to the stored closer. -/
def Source.Close (s : Source) (st : ConnState) : ConnState × Option String :=
  match s.closer with
  | none => (st, none)
  | some c => c st

/-- The connection state after n successive calls to Close. -/
def closeN (s : Source) (st : ConnState) : Nat → ConnState
  | 0 => st
  | n + 1 => (s.Close (closeN s st n)).1

/-- C9: Close is safe to call any number of times; a backend built from an
externally supplied connection always returns a nil error and never
touches the connection, however often Close is called; a backend that
opened its own connection delegates Close to the closer of that connection,
and repeated calls keep the connection closed with nil errors. -/
theorem close_ownership_contract (st : ConnState) (n : Nat) :
    Source.Close NewSourceFromDB st = (st, none) ∧
      closeN NewSourceFromDB st n = st ∧
      (Source.Close NewSourceFromDB (closeN NewSourceFromDB st n)).2 = none ∧
      Source.Close NewSource st = dbClose st ∧
      closeN NewSource st (n + 1) = { closed := true } ∧
      (Source.Close NewSource (closeN NewSource st n)).2 = none := by
  have hb : closeN NewSourceFromDB st n = st := by
    induction n with
    | zero => rfl
    | succ n ih => show (Source.Close NewSourceFromDB (closeN NewSourceFromDB st n)).1 = st; rw [ih]; rfl
  refine ⟨rfl, hb, rfl, rfl, rfl, ?_⟩
  cases n with
  | zero => rfl
  | succ n => rfl

end Dberd
